import Mathlib

/-!
Shallow embedding of the tournament round-lifecycle core of src/tournament_app.py.

The storage substrate is a Neo4j property graph; per the data model (spec section 3)
the pointers STARTING_HOLE / CURRENT_HOLE are 0-or-1 per round, every Course owns
holes numbered 1 to 18, there is one TeamRound per (Team, Tournament) and one
PlayerRound per (Player, TeamRound), and node ids are unique.  Under those
invariants the graph state is rendered here as plain records with Option-valued
pointers (spec section 9 notes that in a non-graph implementation the
delete-then-create pointer edits are plain assignment) and association lists.
Tournament and course names are modelled as Nat keys.
-/

namespace Minigolf

/-- Round status strings used by tournament_app.py: ready, active, complete, done. -/
inductive Status where
  | ready
  | active
  | complete
  | done
deriving DecidableEq

/-- Executable exact value for the float-valued average property: a fraction
num / (dpred + 1), kept unreduced so every operation computes by structural
recursion; the denominator dpred + 1 is positive by construction. -/
structure Frac where
  num : Int
  dpred : Nat
deriving DecidableEq

/-- The (positive) denominator. -/
def Frac.den (a : Frac) : Nat :=
  a.dpred + 1

/-- The float literal 0.0. -/
def Frac.zero : Frac :=
  ⟨0, 0⟩

/-- The whole number a as an average value. -/
def Frac.ofInt (a : Int) : Frac :=
  ⟨a, 0⟩

/-- The division total / count performed by the aggregate queries; only ever
reached with 0 < n. -/
def fracDiv (a : Int) (n : Nat) : Frac :=
  ⟨a, n - 1⟩

/-- Numeric order on average values, by cross-multiplication (denominators are
positive): num_a * den_b is compared with num_b * den_a. -/
def Frac.le (a b : Frac) : Prop :=
  a.num * (b.den : Int) ≤ b.num * (a.den : Int)

/-- Strict numeric order on average values. -/
def Frac.lt (a b : Frac) : Prop :=
  a.num * (b.den : Int) < b.num * (a.den : Int)

/-- Numeric equality of average values (identifies unreduced fractions). -/
def Frac.valueEq (a b : Frac) : Prop :=
  a.num * (b.den : Int) = b.num * (a.den : Int)

instance : DecidableRel Frac.le :=
  fun a b => inferInstanceAs (Decidable (a.num * (b.den : Int) ≤ b.num * (a.den : Int)))

instance : DecidableRel Frac.lt :=
  fun a b => inferInstanceAs (Decidable (a.num * (b.den : Int) < b.num * (a.den : Int)))

instance : DecidableRel Frac.valueEq :=
  fun a b => inferInstanceAs (Decidable (a.num * (b.den : Int) = b.num * (a.den : Int)))

/-- A Player node: number (key) and the Team it is MEMBER_OF. -/
structure Player where
  number : Nat
  team : Nat
deriving DecidableEq

/-- A PlayerRound node together with its outgoing relationships:
PLAYED_ROUND from the player (field player), PLAYED_ROUND to the team round
(field teamRound), PLAYED_ON to a course (field course), STARTING_HOLE and
CURRENT_HOLE pointers, and the PLAYED_HOLE score edges (hole number, score).
Properties status, active, completed, total, average, rank as in the source. -/
structure PlayerRound where
  id : Nat
  player : Nat
  teamRound : Nat
  course : Nat
  status : Status
  activeFlag : Bool
  completed : Bool
  total : Int
  average : Frac
  rank : Nat
  startingHole : Option Nat
  currentHole : Option Nat
  scores : List (Nat × Int)
deriving DecidableEq

/-- A TeamRound node with its relationships: PLAYED_ROUND from the team,
IN_TOURNAMENT, PLAYED_ON to a course, and the two hole pointers. -/
structure TeamRound where
  id : Nat
  team : Nat
  tournament : Nat
  course : Nat
  status : Status
  activeFlag : Bool
  completed : Bool
  total : Int
  average : Frac
  rank : Nat
  startingHole : Option Nat
  currentHole : Option Nat
deriving DecidableEq

/-- The graph state: Player nodes, Team node numbers, HAS_TOURNAMENT edges as
(tournament, team) pairs, and the two round node lists. -/
structure World where
  players : List Player
  teams : List Nat
  hasTeam : List (Nat × Nat)
  teamRounds : List TeamRound
  playerRounds : List PlayerRound
deriving DecidableEq

/-- MATCH (c:Course)-[:HAS_HOLE]->(h:Hole {number: n}) succeeds exactly when the
course owns a hole numbered n; per the data model every course owns holes 1-18. -/
def courseHasHole (n : Nat) : Bool :=
  decide (1 ≤ n ∧ n ≤ 18)

/-- The CASE expression of record_score / record_team_scores computing the number
of the hole looked up as next after scoring hole h with starting hole sh:
WHEN h = sh THEN 18, WHEN h = 17 THEN 1, ELSE h + 1. -/
def nextHoleNumber (sh h : Nat) : Nat :=
  if h = sh then 18 else if h = 17 then 1 else h + 1

/-- Follows the words of the spec only (section 4.2 Rotation Engine), for contrast with
the nextHoleNumber of the source: the round visits S, S+1, ..., 18, 1, ..., S-1, so
after scoring h the next hole is h+1 with 18 wrapping to 1, and there is no next
hole exactly when that successor would be the starting hole again. -/
def specRotationNext (sh h : Nat) : Option Nat :=
  let n := if h = 18 then 1 else h + 1
  if n = sh then none else some n

/-- MERGE (pr)-[prh:PLAYED_HOLE]->(h) SET prh.score: if edges to hole h exist they
all get the new score, otherwise one new edge is created. -/
def upsertScore (scores : List (Nat × Int)) (h : Nat) (s : Int) : List (Nat × Int) :=
  if scores.any fun e => e.1 = h then
    scores.map fun e => if e.1 = h then (h, s) else e
  else scores ++ [(h, s)]

/-- Rewrite the PlayerRound with the given node id (node identity). -/
def mapPR (w : World) (i : Nat) (f : PlayerRound → PlayerRound) : World :=
  { w with playerRounds := w.playerRounds.map fun pr => if pr.id = i then f pr else pr }

/-- The MATCH pattern of record_score: Player {number} -PLAYED_ROUND-> pr
-PLAYED_ROUND-> tr -IN_TOURNAMENT-> Tournament {name}, pr -PLAYED_ON->
Course {name} -HAS_HOLE-> Hole {number}, WHERE pr.status = active. -/
def prMatches (w : World) (pr : PlayerRound) (pn tn cn hn : Nat) : Bool :=
  (w.players.any fun p => p.number = pn) &&
  pr.player = pn &&
  (w.teamRounds.any fun tr => tr.id = pr.teamRound && tr.tournament = tn) &&
  pr.course = cn &&
  courseHasHole hn &&
  pr.status = Status.active

/-- The PlayerRound resolved by record_score (unique under the one-round-per-
(player, tournament) invariant; the endpoint reads row 0). -/
def findPlayerRound (w : World) (pn tn cn hn : Nat) : Option PlayerRound :=
  w.playerRounds.find? fun pr => prMatches w pr pn tn cn hn

/-- Body of the record_score JSON response. -/
structure ScoreResponse where
  recordedScore : Int
  nextHole : Nat
deriving DecidableEq

/-- POST /record-score.  Resolves the active round (no rows: the endpoint hits
IndexError on data()[0] and answers HTTP 500 with nothing written), upserts the
PLAYED_HOLE score, reads STARTING_HOLE, then MATCHes the hole numbered
nextHoleNumber sh h.  That inner MATCH is not OPTIONAL: when the computed number
is not a hole of the course the query yields zero rows, so the DELETE, both
FOREACH branches (including the one that would set status = complete) and the
RETURN never run, the already-performed MERGE persists, and the endpoint answers
HTTP 500.  On success every CURRENT_HOLE edge is deleted (the target of the
delete pattern is unbound there) and one to the next hole is created. -/
def recordScore (w : World) (pn tn cn hn : Nat) (sc : Int) : World × Option ScoreResponse :=
  match findPlayerRound w pn tn cn hn with
  | none => (w, none)
  | some pr =>
    let w1 := mapPR w pr.id fun q => { q with scores := upsertScore q.scores hn sc }
    match pr.startingHole with
    | none => (w1, none)
    | some sh =>
      let nh := nextHoleNumber sh hn
      if courseHasHole nh then
        (mapPR w1 pr.id fun q => { q with currentHole := some nh }, some ⟨sc, nh⟩)
      else
        (w1, none)

/-- HTTP status answered by /record-score: 200 on success; every failure path of
the handler (zero rows from the query) raises a caught exception and yields 500. -/
def recordScoreHTTPStatus (w : World) (pn tn cn hn : Nat) (sc : Int) : Nat :=
  match (recordScore w pn tn cn hn sc).2 with
  | some _ => 200
  | none => 500

/-- The filter WHERE status IN (active, complete) used throughout update_leaderboard. -/
def statusQualifies (s : Status) : Bool :=
  s = Status.active || s = Status.complete

/-- reduce(sum = 0, score IN scores | sum + score). -/
def sumScores (scores : List (Nat × Int)) : Int :=
  (scores.map fun e => e.2).sum

/-- First query of update_leaderboard, per PlayerRound: only rounds with
qualifying status AND at least one PLAYED_HOLE edge are matched (the match is
not OPTIONAL), and for those total := sum of scores, average := total / count. -/
def playerAggregate (pr : PlayerRound) : PlayerRound :=
  if statusQualifies pr.status && !pr.scores.isEmpty then
    { pr with
        total := sumScores pr.scores,
        average := fracDiv (sumScores pr.scores) pr.scores.length }
  else pr

/-- ORDER BY pr.total ASC used by the player rank query. -/
def leByTotal (a b : PlayerRound) : Prop :=
  a.total ≤ b.total

instance : DecidableRel leByTotal :=
  fun a b => inferInstanceAs (Decidable (a.total ≤ b.total))

instance : IsTotal PlayerRound leByTotal :=
  ⟨fun a b => Int.le_total a.total b.total⟩

instance : IsTrans PlayerRound leByTotal :=
  ⟨fun _ _ _ h1 h2 => le_trans h1 h2⟩

/-- ORDER BY tr.average ASC used by the team rank query. -/
def leByAverage (a b : TeamRound) : Prop :=
  Frac.le a.average b.average

instance : DecidableRel leByAverage :=
  fun a b => inferInstanceAs (Decidable (Frac.le a.average b.average))

instance : IsTotal TeamRound leByAverage :=
  ⟨fun a b =>
    (Int.le_total (a.average.num * (b.average.den : Int))
      (b.average.num * (a.average.den : Int))).imp id id⟩

instance : IsTrans TeamRound leByAverage :=
  ⟨fun a b c h1 h2 => by
    unfold leByAverage Frac.le at h1 h2 ⊢
    have ha : (0 : Int) < (a.average.den : Int) :=
      Int.natCast_pos.mpr (Nat.succ_pos a.average.dpred)
    have hb : (0 : Int) < (b.average.den : Int) :=
      Int.natCast_pos.mpr (Nat.succ_pos b.average.dpred)
    have hc : (0 : Int) < (c.average.den : Int) :=
      Int.natCast_pos.mpr (Nat.succ_pos c.average.dpred)
    nlinarith [mul_le_mul_of_nonneg_right h1 (le_of_lt hc),
               mul_le_mul_of_nonneg_right h2 (le_of_lt ha)]⟩

/-- The collected, ordered list of the player rank query: ALL PlayerRounds with
qualifying status (no tournament scoping appears in the query), ordered by total
ascending.  Ties are left in an order the source does not determine. -/
def orderedQualifying (prs : List PlayerRound) : List PlayerRound :=
  List.insertionSort leByTotal (prs.filter fun pr => statusQualifies pr.status)

/-- The collected, ordered list of the team rank query: all TeamRounds with
qualifying status, ordered by AVERAGE ascending. -/
def orderedQualifyingTeams (trs : List TeamRound) : List TeamRound :=
  List.insertionSort leByAverage (trs.filter fun tr => statusQualifies tr.status)

/-- 1-based position of the node with id i in a list (UNWIND range(0, size-1) ...
SET rank = i+1 addresses nodes by identity; ids are unique node keys here). -/
def posRank (idOf : α → Nat) (i : Nat) : List α → Option Nat
  | [] => none
  | q :: rest => if idOf q = i then some 1 else (posRank idOf i rest).map (· + 1)

/-- Player rank query: each qualifying PlayerRound gets rank := its 1-based
position in the globally ordered list; other rounds keep their rank. -/
def applyPlayerRanks (prs : List PlayerRound) : List PlayerRound :=
  prs.map fun pr =>
    match posRank PlayerRound.id pr.id (orderedQualifying prs) with
    | some r => { pr with rank := r }
    | none => pr

/-- Team rank query, same shape, ordered by average. -/
def applyTeamRanks (trs : List TeamRound) : List TeamRound :=
  trs.map fun tr =>
    match posRank TeamRound.id tr.id (orderedQualifyingTeams trs) with
    | some r => { tr with rank := r }
    | none => tr

/-- Member PlayerRounds feeding the aggregate of a TeamRound: MATCH (p)-[:MEMBER_OF]->
(t), (p)-[:PLAYED_ROUND]->(pr), (pr)-[:PLAYED_ROUND]->(tr), WHERE pr.status
qualifying (pr.total is always set in this model). -/
def contributingPRs (w : World) (tr : TeamRound) : List PlayerRound :=
  w.playerRounds.filter fun pr =>
    pr.teamRound = tr.id &&
    statusQualifies pr.status &&
    (w.players.any fun p => p.number = pr.player && p.team = tr.team)

/-- Third query of update_leaderboard, per TeamRound: requires the Team node,
qualifying status, and at least one contributing member row; then total := sum of
the (already refreshed) member totals, average := total / member count. -/
def teamAggregate (w : World) (tr : TeamRound) : TeamRound :=
  let ctr := contributingPRs w tr
  if statusQualifies tr.status && (w.teams.any fun t => t = tr.team) && !ctr.isEmpty then
    { tr with
        total := (ctr.map fun pr => pr.total).sum,
        average := fracDiv (ctr.map fun pr => pr.total).sum ctr.length }
  else tr

/-- Queries 1 and 2 of update_leaderboard (player aggregates, then player ranks). -/
def playerPhases (w : World) : World :=
  { w with playerRounds := applyPlayerRanks (w.playerRounds.map playerAggregate) }

/-- Query 3 of update_leaderboard (team aggregates). -/
def teamAggPhase (w : World) : World :=
  { w with teamRounds := w.teamRounds.map (teamAggregate w) }

/-- POST /update-leaderboard: the four queries in order.  Nothing in any of them
restricts to one tournament. -/
def updateLeaderboard (w : World) : World :=
  let w2 := playerPhases w
  let w3 := teamAggPhase w2
  { w3 with teamRounds := applyTeamRanks w3.teamRounds }

/-- PlayerRounds as they stand after the aggregate query of update_leaderboard. -/
def aggregatedPlayerRounds (w : World) : List PlayerRound :=
  w.playerRounds.map playerAggregate

/-- TeamRounds as they stand after the team aggregate query of update_leaderboard. -/
def aggregatedTeamRounds (w : World) : List TeamRound :=
  (teamAggPhase (playerPhases w)).teamRounds

/-- MATCH pattern of activate_team_round: Tournament {name} -HAS_TEAM-> Team
{number} -PLAYED_ROUND-> tr -IN_TOURNAMENT-> t, tr -PLAYED_ON-> Course {name}
-HAS_HOLE-> Hole {number}. -/
def trActivateMatches (w : World) (tr : TeamRound) (tn teamN cn hn : Nat) : Bool :=
  (w.hasTeam.any fun e => e.1 = tn && e.2 = teamN) &&
  tr.team = teamN &&
  tr.tournament = tn &&
  tr.course = cn &&
  courseHasHole hn

/-- POST /activate-team-round: every matched TeamRound gets status active, zeroed
aggregates, and both pointers replaced (delete-then-create) by the given hole;
zero matches answer HTTP 404 with nothing written. -/
def activateTeamRound (w : World) (tn teamN cn hn : Nat) : World × Nat :=
  if w.teamRounds.any fun tr => trActivateMatches w tr tn teamN cn hn then
    ({ w with teamRounds := w.teamRounds.map fun tr =>
        if trActivateMatches w tr tn teamN cn hn then
          { tr with
              activeFlag := true, total := 0, average := Frac.zero, rank := 0,
              status := Status.active, completed := false,
              startingHole := some hn, currentHole := some hn }
        else tr }, 200)
  else (w, 404)

/-- MATCH pattern of the team pointer query of record_team_scores: Team {number}
-PLAYED_ROUND-> tr -IN_TOURNAMENT-> Tournament {name}, tr -PLAYED_ON-> Course
{name} -HAS_HOLE-> Hole {number}, WHERE tr.status = active, and a STARTING_HOLE
pointer must exist (its MATCH is not OPTIONAL). -/
def teamAdvanceMatches (w : World) (tr : TeamRound) (tn cn hn teamN : Nat) : Bool :=
  (w.teams.any fun t => t = teamN) &&
  tr.team = teamN &&
  tr.tournament = tn &&
  tr.course = cn &&
  courseHasHole hn &&
  tr.status = Status.active &&
  tr.startingHole.isSome

/-- Pointer / completion step of record_team_scores for one matched TeamRound:
OPTIONAL MATCH the hole numbered nextHoleNumber sh h; the CURRENT_HOLE edge is
deleted only when it points at the just-scored hole (its target is the bound h
here, unlike record_score); when the next hole is null the status is set to
complete, otherwise a CURRENT_HOLE edge to it is created. -/
def advanceTeamRound (tr : TeamRound) (hn : Nat) : TeamRound :=
  match tr.startingHole with
  | none => tr
  | some sh =>
    let nhn := nextHoleNumber sh hn
    let afterDelete : Option Nat := if tr.currentHole = some hn then none else tr.currentHole
    if courseHasHole nhn then
      { tr with currentHole := some nhn }
    else
      { tr with status := Status.complete, currentHole := afterDelete }

/-- The per-player loop of record_team_scores: record_score for each listed
(player, score); a failing call raises, aborting the endpoint before the team
query while keeping the already-committed writes. -/
def recordScoresFold (w : World) (tn cn hn : Nat) : List (Nat × Int) → World × Bool
  | [] => (w, true)
  | (pn, sc) :: rest =>
    let r := recordScore w pn tn cn hn sc
    match r.2 with
    | none => (r.1, false)
    | some _ => recordScoresFold r.1 tn cn hn rest

/-- Team pointer query of record_team_scores: zero rows hit IndexError on
data()[0] (HTTP 500, team state untouched); otherwise every matched TeamRound is
advanced and the response carries the next hole number (0 when complete). -/
def teamHoleUpdate (w : World) (tn cn hn teamN : Nat) : World × Option Nat :=
  match w.teamRounds.filter fun tr => teamAdvanceMatches w tr tn cn hn teamN with
  | [] => (w, none)
  | tr0 :: _ =>
    let w1 := { w with teamRounds := w.teamRounds.map fun tr =>
      if teamAdvanceMatches w tr tn cn hn teamN then advanceTeamRound tr hn else tr }
    let nh0 := nextHoleNumber (tr0.startingHole.getD 0) hn
    (w1, some (if courseHasHole nh0 then nh0 else 0))

/-- POST /record-team-scores: the player loop, then - independently of the list,
empty or not - the team pointer query. -/
def recordTeamScores (w : World) (tn cn hn teamN : Nat) (ps : List (Nat × Int)) :
    World × Option Nat :=
  let r := recordScoresFold w tn cn hn ps
  if r.2 then teamHoleUpdate r.1 tn cn hn teamN else (r.1, none)

/-- Team-round half of the start_tournament / end_tournament MATCH chain:
Tournament {name} -HAS_TEAM-> Team -PLAYED_ROUND-> tr -IN_TOURNAMENT-> t. -/
def trInTournament (w : World) (tr : TeamRound) (tn : Nat) : Bool :=
  tr.tournament = tn && (w.hasTeam.any fun e => e.1 = tn && e.2 = tr.team)

/-- Player-round member chain: the above plus Player -MEMBER_OF-> Team and
Player -PLAYED_ROUND-> pr -PLAYED_ROUND-> tr. -/
def prInTournament (w : World) (pr : PlayerRound) (tn : Nat) : Bool :=
  w.teamRounds.any fun tr =>
    tr.id = pr.teamRound && tr.tournament = tn &&
    (w.hasTeam.any fun e => e.1 = tn && e.2 = tr.team) &&
    (w.players.any fun p => p.number = pr.player && p.team = tr.team)

/-- A TeamRound is touched by start_tournament only if the full chain down to
some member PlayerRound matches (none of those MATCHes is OPTIONAL). -/
def trInTournamentWithPlayer (w : World) (tr : TeamRound) (tn : Nat) : Bool :=
  trInTournament w tr tn &&
  (w.playerRounds.any fun pr =>
    pr.teamRound = tr.id &&
    (w.players.any fun p => p.number = pr.player && p.team = tr.team))

/-- The start_tournament reset of a PlayerRound: its PLAYED_HOLE, STARTING_HOLE and
CURRENT_HOLE edges are deleted and status/aggregates reset. -/
def resetPlayerRound (pr : PlayerRound) : PlayerRound :=
  { pr with
      scores := [], startingHole := none, currentHole := none,
      status := Status.ready, total := 0, average := Frac.zero, rank := 0 }

/-- The start_tournament reset of a TeamRound.  The cleanup query reuses the
relationship variable ph of the player-edge OPTIONAL MATCH in the team-pointer
OPTIONAL MATCH; a bound (or null) relationship variable cannot re-match a
different relationship, so the STARTING_HOLE / CURRENT_HOLE edges of the TeamRound
are never deleted - only status and aggregates are reset. -/
def resetTeamRound (tr : TeamRound) : TeamRound :=
  { tr with status := Status.ready, total := 0, average := Frac.zero, rank := 0 }

/-- POST /start-tournament: resets every (TeamRound, PlayerRound) pair reachable
through the full member chain; zero rows answer HTTP 404 with nothing written. -/
def startTournament (w : World) (tn : Nat) : World × Nat :=
  if w.teamRounds.any fun tr => trInTournamentWithPlayer w tr tn then
    ({ w with
        teamRounds := w.teamRounds.map fun tr =>
          if trInTournamentWithPlayer w tr tn then resetTeamRound tr else tr,
        playerRounds := w.playerRounds.map fun pr =>
          if prInTournament w pr tn then resetPlayerRound pr else pr }, 200)
  else (w, 404)

/-- The end_tournament_query: first half sets status done on every TeamRound of
the tournament, second half on every member PlayerRound. -/
def endTournamentSetDone (w : World) (tn : Nat) : World :=
  let wa := { w with teamRounds := w.teamRounds.map fun tr =>
    if trInTournament w tr tn then { tr with status := Status.done } else tr }
  { wa with playerRounds := wa.playerRounds.map fun pr =>
    if prInTournament wa pr tn then { pr with status := Status.done } else pr }

/-- The temp_activate_query of end_tournament: sets the BOOLEAN property active
to true on the member-chain rounds; it does not touch the status property that
update_leaderboard filters on. -/
def tempActivate (w : World) (tn : Nat) : World :=
  { w with
      teamRounds := w.teamRounds.map fun tr =>
        if trInTournamentWithPlayer w tr tn then { tr with activeFlag := true } else tr,
      playerRounds := w.playerRounds.map fun pr =>
        if prInTournament w pr tn then { pr with activeFlag := true } else pr }

/-- POST /end-tournament: run the set-done query (its RETURN yields a row only if
some full member chain exists; otherwise HTTP 404, though the team half of the
SET has already been committed), then temp-activate, then update_leaderboard,
then the set-done query once more. -/
def endTournament (w : World) (tn : Nat) : World × Nat :=
  let w1 := endTournamentSetDone w tn
  if w.playerRounds.any fun pr => prInTournament w pr tn then
    (endTournamentSetDone (updateLeaderboard (tempActivate w1 tn)) tn, 200)
  else (w1, 404)

/-- Body of the end_player_round JSON response. -/
structure EndRoundResponse where
  total : Int
  average : Frac
  holesPlayed : Nat
deriving DecidableEq

/-- find_query of end_player_round: Player {number} -PLAYED_ROUND-> pr with the
BOOLEAN property active = true, pr -PLAYED_ROUND-> tr -IN_TOURNAMENT-> t {name}. -/
def findEndPR (w : World) (pn tn : Nat) : Option PlayerRound :=
  w.playerRounds.find? fun pr =>
    (w.players.any fun p => p.number = pn) &&
    pr.player = pn &&
    pr.activeFlag &&
    (w.teamRounds.any fun tr => tr.id = pr.teamRound && tr.tournament = tn)

/-- POST /end-player-round: 404 when the find query matches nothing; otherwise
the total and average of the round are recomputed from its scores, with size(scores)
guarding both CASE branches against empty collections, and the round is marked
active = false, completed = true. -/
def endPlayerRound (w : World) (pn tn : Nat) : World × Option EndRoundResponse :=
  match findEndPR w pn tn with
  | none => (w, none)
  | some pr =>
    let n := pr.scores.length
    let tot : Int := if 0 < n then sumScores pr.scores else 0
    let avg : Frac := if 0 < n then fracDiv (sumScores pr.scores) n else Frac.zero
    (mapPR w pr.id fun q =>
      { q with activeFlag := false, completed := true, total := tot, average := avg },
     some ⟨tot, avg, n⟩)

/-! Concrete states used by the evaluation theorems and witnesses below. -/

/-- One active PlayerRound of player 1, team round 1, tournament 1, course 1,
starting and current hole 5, no scores yet. -/
def basePR : PlayerRound :=
  { id := 1, player := 1, teamRound := 1, course := 1, status := Status.active,
    activeFlag := true, completed := false, total := 0, average := Frac.zero, rank := 0,
    startingHole := some 5, currentHole := some 5, scores := [] }

/-- The matching active TeamRound of team 1 in tournament 1 on course 1. -/
def baseTR : TeamRound :=
  { id := 1, team := 1, tournament := 1, course := 1, status := Status.active,
    activeFlag := true, completed := false, total := 0, average := Frac.zero, rank := 0,
    startingHole := some 5, currentHole := some 5 }

/-- Tournament 1 with team 1, player 1 and the two rounds above. -/
def baseWorld : World :=
  { players := [⟨1, 1⟩], teams := [1], hasTeam := [(1, 1)],
    teamRounds := [baseTR], playerRounds := [basePR] }

/-- baseWorld with the current hole of the player round already moved to 18. -/
def worldAt18 : World :=
  { baseWorld with playerRounds := [{ basePR with currentHole := some 18 }] }

/-- Team round that has reached hole 4, one before its starting hole 5. -/
def teamRoundAt4 : TeamRound :=
  { baseTR with currentHole := some 4 }

/-- Team round that has reached hole 18, starting hole 5. -/
def teamRoundAt18 : TeamRound :=
  { baseTR with currentHole := some 18 }

/-- baseWorld with one recorded score of 4 on hole 5 and stale aggregates. -/
def worldScored : World :=
  { baseWorld with playerRounds := [{ basePR with scores := [(5, 4)] }] }

/-- A finished PlayerRound carrying only aggregates (no live scores), for the
ranking examples: total as given, status complete. -/
def donePR (i pn trId tot : Nat) : PlayerRound :=
  { id := i, player := pn, teamRound := trId, course := 1, status := Status.complete,
    activeFlag := false, completed := true, total := tot, average := Frac.zero, rank := 0,
    startingHole := none, currentHole := none, scores := [] }

/-- One tournament only: player totals 72, 68, 75. -/
def worldOneTournament : World :=
  { players := [], teams := [], hasTeam := [], teamRounds := [],
    playerRounds := [donePR 1 1 1 72, donePR 2 2 1 68, donePR 3 3 1 75] }

/-- Two tournaments: the three rounds above in tournament 1 (team round 1) and a
fourth round with total 60 in tournament 2 (team round 2). -/
def worldTwoTournaments : World :=
  { players := [], teams := [], hasTeam := [],
    teamRounds :=
      [{ baseTR with id := 1, status := Status.ready },
       { baseTR with id := 2, team := 2, tournament := 2, status := Status.ready }],
    playerRounds :=
      [donePR 1 1 1 72, donePR 2 2 1 68, donePR 3 3 1 75, donePR 4 4 2 60] }

/-- Team ranking example: team round 1 has two members with totals 50 and 50
(team total 100, average 50), team round 2 one member with total 90 (average 90). -/
def worldTeamAverages : World :=
  { players := [⟨1, 1⟩, ⟨2, 1⟩, ⟨3, 2⟩], teams := [1, 2], hasTeam := [(1, 1), (1, 2)],
    teamRounds :=
      [{ baseTR with id := 1, status := Status.complete },
       { baseTR with id := 2, team := 2, status := Status.complete }],
    playerRounds :=
      [{ donePR 1 1 1 50 with player := 1 },
       { donePR 2 2 1 50 with player := 2 },
       { donePR 3 3 2 90 with player := 3 }] }

/-- The empty graph. -/
def emptyWorld : World :=
  { players := [], teams := [], hasTeam := [], teamRounds := [], playerRounds := [] }

/-- baseWorld with the player round still in status ready (not yet activated). -/
def worldReadyRound : World :=
  { baseWorld with playerRounds := [{ basePR with status := Status.ready }] }

/-- An active PlayerRound with no score records but a stale nonzero total, and an
active TeamRound with no contributing members and a stale nonzero total. -/
def worldStale : World :=
  { players := [], teams := [1], hasTeam := [(1, 1)],
    teamRounds := [{ baseTR with total := 9, average := Frac.ofInt 9 }],
    playerRounds := [{ basePR with total := 7, average := Frac.ofInt 3 }] }

/-- baseWorld with the team round pointers at hole 3 and a recorded score. -/
def worldBeforeReset : World :=
  { baseWorld with
      teamRounds := [{ baseTR with startingHole := some 3, currentHole := some 3 }],
      playerRounds := [{ basePR with scores := [(5, 4)], total := 4, average := Frac.ofInt 4 }] }

/-- World with pairwise distinct player totals (40, 90) and team averages, used
to instantiate the ranking characterization: team 1 with player 1 (total 40),
team 2 with player 2 (total 90), both rounds complete. -/
def worldRanked : World :=
  { players := [⟨1, 1⟩, ⟨2, 2⟩], teams := [1, 2], hasTeam := [(1, 1), (1, 2)],
    teamRounds :=
      [{ baseTR with id := 1, status := Status.complete },
       { baseTR with id := 2, team := 2, status := Status.complete }],
    playerRounds := [donePR 1 1 1 40, donePR 2 2 2 90] }

/-! Claim theorems. -/

/-- C1: the claim says score submissions advance current_hole through
S, S+1, ..., 18, 1, ..., S-1 (successor h+1 with 18 wrapping to 1), with no next
hole, and status complete, exactly when the just-scored hole circularly precedes
S.  The CASE formula of the code disagrees: with starting hole 5 the successor of the
just-scored hole 5 is computed as 18 (the spec rotation gives 6), the successor
of 17 as 1 (spec: 18), scoring hole 18 finds no next hole mid-rotation and
record_score answers HTTP 500 with the round left active (it can never set
status complete since its next-hole MATCH is not OPTIONAL), and the team query
completes at hole 18 (spec: at hole 4) while leaving hole 4 mid-rotation. -/
theorem C1_rotation_code_bug :
    nextHoleNumber 5 5 = 18 ∧ specRotationNext 5 5 = some 6 ∧
    nextHoleNumber 5 17 = 1 ∧ specRotationNext 5 17 = some 18 ∧
    courseHasHole (nextHoleNumber 5 18) = false ∧ specRotationNext 5 18 = some 1 ∧
    courseHasHole (nextHoleNumber 5 4) = true ∧ specRotationNext 5 4 = none ∧
    (recordScore baseWorld 1 1 1 5 3).2 = some ⟨3, 18⟩ ∧
    ((recordScore baseWorld 1 1 1 5 3).1.playerRounds.map PlayerRound.currentHole
      = [some 18]) ∧
    (recordScore worldAt18 1 1 1 18 3).2 = none ∧
    ((recordScore worldAt18 1 1 1 18 3).1.playerRounds.map PlayerRound.status
      = [Status.active]) ∧
    ((recordScore worldAt18 1 1 1 18 3).1.playerRounds.map PlayerRound.scores
      = [[(18, 3)]]) ∧
    (advanceTeamRound teamRoundAt4 4).status = Status.active ∧
    (advanceTeamRound teamRoundAt4 4).currentHole = some 5 ∧
    (advanceTeamRound teamRoundAt18 18).status = Status.complete := by
  decide

/-- C2: the claim says end-tournament freezes every round at the aggregates an
immediately preceding update-leaderboard would compute.  In worldScored a fresh
update-leaderboard sets the player total to 4 (its one recorded score), but
end-tournament first sets every status to done and its temp-activation touches
only the boolean active property, so the leaderboard refresh it triggers matches
nothing in the tournament and the stale total 0 is frozen; only the status=done
half of the claim holds. -/
theorem C2_end_tournament_stale_aggregates :
    ((updateLeaderboard worldScored).playerRounds.map PlayerRound.total = [4]) ∧
    ((endTournament worldScored 1).2 = 200) ∧
    ((endTournament worldScored 1).1.playerRounds.map PlayerRound.total = [0]) ∧
    ((endTournament worldScored 1).1.playerRounds.map PlayerRound.status
      = [Status.done]) ∧
    ((endTournament worldScored 1).1.teamRounds.map TeamRound.status
      = [Status.done]) := by
  decide

/-- C3 counterexample: in a lone tournament the totals [72, 68, 75] do receive
ranks [2, 1, 3], but adding a round with total 60 in ANOTHER tournament shifts
them to [3, 2, 4] because the rank queries contain no tournament scoping; and
team rounds with totals [100, 90] receive ranks [1, 2] - the query orders teams
by average (50 vs 90), not by their own total as the claim states. -/
theorem C3_cross_tournament_counterexample :
    ((updateLeaderboard worldOneTournament).playerRounds.map PlayerRound.rank
      = [2, 1, 3]) ∧
    ((updateLeaderboard worldTwoTournaments).playerRounds.map PlayerRound.rank
      = [3, 2, 4, 1]) ∧
    ((updateLeaderboard worldTeamAverages).teamRounds.map TeamRound.total
      = [100, 90]) ∧
    ((updateLeaderboard worldTeamAverages).teamRounds.map TeamRound.average
      = [fracDiv 100 2, fracDiv 90 1]) ∧
    ((updateLeaderboard worldTeamAverages).teamRounds.map TeamRound.rank
      = [1, 2]) := by
  decide

/-- C4 counterexample: the claim says an unresolvable path fails with NotFound
(HTTP 404) and a non-active round with a distinct InvalidState error.  In the
empty graph, and likewise for a round in status ready, the record_score query
returns zero rows, the handler hits IndexError and answers the generic HTTP 500
in both cases - no 404 and no InvalidState distinction exist in this endpoint
(the no-mutation half of the claim does hold). -/
theorem C4_error_code_counterexample :
    recordScoreHTTPStatus emptyWorld 1 1 1 1 3 = 500 ∧
    (recordScore emptyWorld 1 1 1 1 3).1 = emptyWorld ∧
    recordScoreHTTPStatus worldReadyRound 1 1 1 5 3 = 500 ∧
    (recordScore worldReadyRound 1 1 1 5 3).1 = worldReadyRound := by
  decide

/-- C5 counterexample: the claim says that after update-leaderboard EVERY active
or complete round has total equal to the sum of its score records.  An active
player round with no score records and a stale total 7 keeps total 7 (the
aggregate query only matches rounds with at least one PLAYED_HOLE edge), and an
active team round with no contributing members keeps its stale total 9, where
the claim demands the empty sums 0. -/
theorem C5_zero_scores_counterexample :
    ((updateLeaderboard worldStale).playerRounds.map PlayerRound.total = [7]) ∧
    ((updateLeaderboard worldStale).teamRounds.map TeamRound.total = [9]) := by
  decide

/-- C8 counterexample: the claim says start-tournament deletes the starting and
current hole pointers of every TeamRound.  In worldBeforeReset the reset deletes
the scores and pointers of the player round and sets both statuses to ready, but
the team round pointers at hole 3 survive: the cleanup query reuses the already
bound relationship variable of the player-edge OPTIONAL MATCH, which can never
re-match a team-round edge. -/
theorem C8_team_pointer_counterexample :
    ((startTournament worldBeforeReset 1).2 = 200) ∧
    ((startTournament worldBeforeReset 1).1.teamRounds.map TeamRound.currentHole
      = [some 3]) ∧
    ((startTournament worldBeforeReset 1).1.teamRounds.map TeamRound.startingHole
      = [some 3]) ∧
    ((startTournament worldBeforeReset 1).1.teamRounds.map TeamRound.status
      = [Status.ready]) ∧
    ((startTournament worldBeforeReset 1).1.playerRounds.map PlayerRound.scores
      = [[]]) ∧
    ((startTournament worldBeforeReset 1).1.playerRounds.map PlayerRound.currentHole
      = [none]) := by
  decide

/-! General helper lemmas. -/

theorem findCongrMem {α : Type} (l : List α) (p q : α → Bool)
    (h : ∀ x ∈ l, p x = q x) : l.find? p = l.find? q := by
  induction l with
  | nil => rfl
  | cons a t ih =>
    rw [List.find?_cons, List.find?_cons, h a (List.mem_cons_self a t),
        ih fun x hx => h x (List.mem_cons_of_mem a hx)]

theorem anyCongrMem {α : Type} (l : List α) (p q : α → Bool)
    (h : ∀ x ∈ l, p x = q x) : l.any p = l.any q := by
  induction l with
  | nil => rfl
  | cons a t ih =>
    simp only [List.any_cons, h a (List.mem_cons_self a t),
      ih fun x hx => h x (List.mem_cons_of_mem a hx)]

/-- C4, amended: whether the (player, tournament, course, hole) path fails to
resolve or the round is not in status active, the record_score query matches no
PlayerRound, so nothing at all is written and the endpoint answers the generic
HTTP 500 (IndexError on an empty result) - the two cases are not distinguished
as NotFound versus InvalidState. -/
theorem C4_failure_no_mutation (w : World) (pn tn cn hn : Nat) (sc : Int)
    (h : ∀ pr ∈ w.playerRounds, prMatches w pr pn tn cn hn = false) :
    recordScore w pn tn cn hn sc = (w, none) ∧
    recordScoreHTTPStatus w pn tn cn hn sc = 500 := by
  have hfind : findPlayerRound w pn tn cn hn = none := by
    unfold findPlayerRound
    exact List.find?_eq_none.mpr fun x hx => by simp [h x hx]
  refine ⟨?_, ?_⟩
  · unfold recordScore
    rw [hfind]
  · unfold recordScoreHTTPStatus recordScore
    rw [hfind]

/-- Closed instance of C4_failure_no_mutation: in the empty graph the submission
fails with HTTP 500 and an unchanged state. -/
theorem C4_failure_no_mutation_witness :
    recordScore emptyWorld 2 1 1 1 3 = (emptyWorld, none) ∧
    recordScoreHTTPStatus emptyWorld 2 1 1 1 3 = 500 :=
  C4_failure_no_mutation emptyWorld 2 1 1 1 3 (by decide)

/-- C10: an active player round (boolean active property, as the find query of
end_player_round checks) with zero recorded scores is ended without a division:
both CASE expressions take their size-guarded else branch, the response carries
total 0, average 0.0, holes_played 0, and the round is marked active = false,
completed = true with total 0 and average 0.0. -/
theorem C10_end_player_round_zero_scores (w : World) (pn tn : Nat) (pr : PlayerRound)
    (hfind : findEndPR w pn tn = some pr) (hempty : pr.scores = []) :
    (endPlayerRound w pn tn).2 = some ⟨0, Frac.zero, 0⟩ ∧
    ∃ pr' ∈ (endPlayerRound w pn tn).1.playerRounds,
      pr'.id = pr.id ∧ pr'.activeFlag = false ∧ pr'.completed = true ∧
      pr'.total = 0 ∧ pr'.average = Frac.zero := by
  have hmem : pr ∈ w.playerRounds := by
    unfold findEndPR at hfind
    exact List.mem_of_find?_eq_some hfind
  constructor
  · unfold endPlayerRound
    rw [hfind]
    simp [hempty]
  · unfold endPlayerRound
    rw [hfind]
    simp only [mapPR]
    refine ⟨_, List.mem_map_of_mem _ hmem, ?_⟩
    simp [hempty]

/-- Closed instance of C10_end_player_round_zero_scores at baseWorld. -/
theorem C10_end_player_round_witness :
    (endPlayerRound baseWorld 1 1).2 = some ⟨0, Frac.zero, 0⟩ ∧
    ∃ pr' ∈ (endPlayerRound baseWorld 1 1).1.playerRounds,
      pr'.id = basePR.id ∧ pr'.activeFlag = false ∧ pr'.completed = true ∧
      pr'.total = 0 ∧ pr'.average = Frac.zero :=
  C10_end_player_round_zero_scores baseWorld 1 1 basePR (by decide) (by decide)

/-- C6: when the (tournament, team, course, hole) path resolves,
activate-team-round answers HTTP 200 and every matched TeamRound ends with
total 0, average 0.0, rank 0, status active, and both pointers replaced by the
requested hole; when nothing matches it answers HTTP 404 with the state
untouched. -/
theorem C6_activate_team_round (w : World) (tn teamN cn hn : Nat) :
    ((∀ tr ∈ w.teamRounds, trActivateMatches w tr tn teamN cn hn = false) →
      activateTeamRound w tn teamN cn hn = (w, 404)) ∧
    (∀ tr ∈ w.teamRounds, trActivateMatches w tr tn teamN cn hn = true →
      (activateTeamRound w tn teamN cn hn).2 = 200 ∧
      ∃ tr' ∈ (activateTeamRound w tn teamN cn hn).1.teamRounds,
        tr'.id = tr.id ∧ tr'.status = Status.active ∧ tr'.total = 0 ∧
        tr'.average = Frac.zero ∧ tr'.rank = 0 ∧
        tr'.startingHole = some hn ∧ tr'.currentHole = some hn) := by
  constructor
  · intro hall
    have hany : (w.teamRounds.any fun tr => trActivateMatches w tr tn teamN cn hn) = false :=
      List.any_eq_false.mpr fun x hx => by simp [hall x hx]
    unfold activateTeamRound
    rw [hany]
    simp
  · intro tr htr hmatch
    have hany : (w.teamRounds.any fun tr => trActivateMatches w tr tn teamN cn hn) = true :=
      List.any_eq_true.mpr ⟨tr, htr, hmatch⟩
    unfold activateTeamRound
    rw [hany]
    refine ⟨rfl, ?_⟩
    refine ⟨_, List.mem_map_of_mem _ htr, ?_⟩
    simp [hmatch]

/-- Closed instance of C6_activate_team_round: activating team 1 at hole 7. -/
theorem C6_activate_team_round_witness :
    (activateTeamRound baseWorld 1 1 1 7).2 = 200 ∧
    ∃ tr' ∈ (activateTeamRound baseWorld 1 1 1 7).1.teamRounds,
      tr'.id = baseTR.id ∧ tr'.status = Status.active ∧ tr'.total = 0 ∧
      tr'.average = Frac.zero ∧ tr'.rank = 0 ∧
      tr'.startingHole = some 7 ∧ tr'.currentHole = some 7 :=
  (C6_activate_team_round baseWorld 1 1 1 7).2 baseTR (by decide) (by decide)

theorem recordScore_graph_frame (w : World) (pn tn cn hn : Nat) (sc : Int) :
    (recordScore w pn tn cn hn sc).1.teamRounds = w.teamRounds ∧
    (recordScore w pn tn cn hn sc).1.teams = w.teams ∧
    (recordScore w pn tn cn hn sc).1.players = w.players ∧
    (recordScore w pn tn cn hn sc).1.hasTeam = w.hasTeam := by
  unfold recordScore
  split
  · exact ⟨rfl, rfl, rfl, rfl⟩
  · split
    · exact ⟨rfl, rfl, rfl, rfl⟩
    · dsimp only
      split
      · exact ⟨rfl, rfl, rfl, rfl⟩
      · exact ⟨rfl, rfl, rfl, rfl⟩

theorem recordScoresFold_graph_frame (tn cn hn : Nat) (ps : List (Nat × Int)) :
    ∀ w : World,
      (recordScoresFold w tn cn hn ps).1.teamRounds = w.teamRounds ∧
      (recordScoresFold w tn cn hn ps).1.teams = w.teams := by
  induction ps with
  | nil => exact fun w => ⟨rfl, rfl⟩
  | cons head rest ih =>
    intro w
    obtain ⟨pn, sc⟩ := head
    have hframe := recordScore_graph_frame w pn tn cn hn sc
    simp only [recordScoresFold]
    split
    · exact ⟨hframe.1, hframe.2.1⟩
    · have hr := ih (recordScore w pn tn cn hn sc).1
      exact ⟨hr.1.trans hframe.1, hr.2.trans hframe.2.1⟩

theorem teamHoleUpdate_playerRounds (w : World) (tn cn hn teamN : Nat) :
    (teamHoleUpdate w tn cn hn teamN).1.playerRounds = w.playerRounds := by
  unfold teamHoleUpdate
  split
  · rfl
  · rfl

theorem teamHoleUpdate_congr (w w' : World) (tn cn hn teamN : Nat)
    (hteams : w'.teams = w.teams) (htrs : w'.teamRounds = w.teamRounds) :
    (teamHoleUpdate w' tn cn hn teamN).1.teamRounds
      = (teamHoleUpdate w tn cn hn teamN).1.teamRounds ∧
    (teamHoleUpdate w' tn cn hn teamN).2 = (teamHoleUpdate w tn cn hn teamN).2 := by
  have hpred : ∀ tr, teamAdvanceMatches w' tr tn cn hn teamN
      = teamAdvanceMatches w tr tn cn hn teamN := by
    intro tr
    unfold teamAdvanceMatches
    rw [hteams]
  have hfilter : (w'.teamRounds.filter fun tr => teamAdvanceMatches w' tr tn cn hn teamN)
      = w.teamRounds.filter fun tr => teamAdvanceMatches w tr tn cn hn teamN := by
    rw [htrs]
    exact List.filter_congr fun x _ => hpred x
  have hmap : (w'.teamRounds.map fun tr =>
        if teamAdvanceMatches w' tr tn cn hn teamN then advanceTeamRound tr hn else tr)
      = w.teamRounds.map fun tr =>
        if teamAdvanceMatches w tr tn cn hn teamN then advanceTeamRound tr hn else tr := by
    rw [htrs]
    exact List.map_congr_left fun x _ => by rw [hpred x]
  unfold teamHoleUpdate
  rw [hfilter]
  rcases hf : w.teamRounds.filter (fun tr => teamAdvanceMatches w tr tn cn hn teamN)
    with _ | ⟨tr0, rest⟩
  · simp only [hf]
    exact ⟨htrs, trivial⟩
  · simp only [hf]
    exact ⟨hmap, trivial⟩

/-- C9: record-team-scores runs its team pointer query independently of the
player list: with an empty player_scores list the team round is advanced (or
completed) exactly as by a call whose player submissions all succeed, and the
empty call touches no player round at all. -/
theorem C9_empty_scores_team_advance (w : World) (tn cn hn teamN : Nat)
    (ps : List (Nat × Int))
    (hok : (recordScoresFold w tn cn hn ps).2 = true) :
    (recordTeamScores w tn cn hn teamN ps).1.teamRounds
      = (recordTeamScores w tn cn hn teamN []).1.teamRounds ∧
    (recordTeamScores w tn cn hn teamN ps).2
      = (recordTeamScores w tn cn hn teamN []).2 ∧
    (recordTeamScores w tn cn hn teamN []).1.playerRounds = w.playerRounds := by
  have hframe := recordScoresFold_graph_frame tn cn hn ps w
  have hcongr := teamHoleUpdate_congr w (recordScoresFold w tn cn hn ps).1 tn cn hn teamN
    hframe.2 hframe.1
  have h0 : recordTeamScores w tn cn hn teamN []
      = teamHoleUpdate w tn cn hn teamN := rfl
  have hps : recordTeamScores w tn cn hn teamN ps
      = teamHoleUpdate (recordScoresFold w tn cn hn ps).1 tn cn hn teamN := by
    unfold recordTeamScores
    dsimp only
    rw [hok]
    simp
  rw [hps, h0]
  exact ⟨hcongr.1, hcongr.2, teamHoleUpdate_playerRounds w tn cn hn teamN⟩

/-- Closed instance of C9_empty_scores_team_advance: one submission for player 1
at hole 5 versus the empty list. -/
theorem C9_empty_scores_team_advance_witness :
    (recordTeamScores baseWorld 1 1 5 1 [(1, 3)]).1.teamRounds
      = (recordTeamScores baseWorld 1 1 5 1 []).1.teamRounds ∧
    (recordTeamScores baseWorld 1 1 5 1 [(1, 3)]).2
      = (recordTeamScores baseWorld 1 1 5 1 []).2 ∧
    (recordTeamScores baseWorld 1 1 5 1 []).1.playerRounds = baseWorld.playerRounds :=
  C9_empty_scores_team_advance baseWorld 1 1 5 1 [(1, 3)] (by decide)

theorem filterFstMapSet (s : List (Nat × Int)) (hn : Nat) (v : Int) :
    ((s.map fun e => if e.1 = hn then (hn, v) else e).filter fun e => e.1 = hn)
      = (s.filter fun e => e.1 = hn).map fun _ => (hn, v) := by
  induction s with
  | nil => rfl
  | cons e rest ih =>
    by_cases h : e.1 = hn
    · simp [h, ih]
    · simp [h, ih]

theorem upsertAppendOfAbsent (s : List (Nat × Int)) (hn : Nat) (a : Int)
    (h : (s.any fun e => e.1 = hn) = false) :
    upsertScore s hn a = s ++ [(hn, a)] := by
  unfold upsertScore
  rw [h]
  simp

theorem upsertMapOfPresent (s : List (Nat × Int)) (hn : Nat) (a : Int)
    (h : (s.any fun e => e.1 = hn) = true) :
    upsertScore s hn a = s.map fun e => if e.1 = hn then (hn, a) else e := by
  unfold upsertScore
  rw [h]
  simp

theorem upsertTwiceFilter (s : List (Nat × Int)) (hn : Nat) (a b : Int)
    (hone : (s.filter fun e => e.1 = hn).length ≤ 1) :
    ((upsertScore (upsertScore s hn a) hn b).filter fun e => e.1 = hn) = [(hn, b)] := by
  by_cases hany : (s.any fun e => e.1 = hn) = true
  · have hpos : 0 < (s.filter fun e => e.1 = hn).length := by
      obtain ⟨y, hy, hpy⟩ := List.any_eq_true.mp hany
      exact List.length_pos_of_mem (List.mem_filter.mpr ⟨hy, hpy⟩)
    obtain ⟨x, hx⟩ := List.length_eq_one.mp (le_antisymm hone hpos)
    have hany2 : ((s.map fun e => if e.1 = hn then (hn, a) else e).any
        fun e => e.1 = hn) = true := by
      obtain ⟨y, hy, hpy⟩ := List.any_eq_true.mp hany
      refine List.any_eq_true.mpr ⟨(hn, a), List.mem_map.mpr ⟨y, hy, ?_⟩, by simp⟩
      simp [of_decide_eq_true hpy]
    rw [upsertMapOfPresent s hn a hany, upsertMapOfPresent _ hn b hany2, List.map_map]
    have hcomp : (s.map ((fun e => if e.1 = hn then (hn, b) else e) ∘
          fun e => if e.1 = hn then (hn, a) else e))
        = s.map fun e => if e.1 = hn then (hn, b) else e := by
      apply List.map_congr_left
      intro e _
      by_cases h : e.1 = hn
      · simp [Function.comp, h]
      · simp [Function.comp, h]
    rw [hcomp, filterFstMapSet, hx]
    rfl
  · have hf : (s.any fun e => e.1 = hn) = false := by
      revert hany
      cases s.any fun e => e.1 = hn
      · intro _; rfl
      · intro hc; exact absurd rfl hc
    have hfil : (s.filter fun e => e.1 = hn) = [] := by
      refine List.filter_eq_nil_iff.mpr ?_
      exact List.any_eq_false.mp hf
    have hany2 : ((s ++ [(hn, a)]).any fun e => e.1 = hn) = true := by simp
    rw [upsertAppendOfAbsent s hn a hf, upsertMapOfPresent _ hn b hany2,
        filterFstMapSet, List.filter_append, hfil]
    simp

theorem mapSelComp (l : List PlayerRound) (i : Nat) (f1 f2 : PlayerRound → PlayerRound)
    (hid : ∀ q, (f1 q).id = q.id) :
    ((l.map fun q => if q.id = i then f1 q else q).map fun q => if q.id = i then f2 q else q)
      = l.map fun q => if q.id = i then f2 (f1 q) else q := by
  rw [List.map_map]
  apply List.map_congr_left
  intro x _
  by_cases h : x.id = i
  · simp [h, hid]
  · simp [h]

theorem recordScore_playerRounds_shape (w : World) (pn tn cn hn : Nat) (sc : Int)
    (pr : PlayerRound) (hfind : findPlayerRound w pn tn cn hn = some pr) :
    ∃ g : PlayerRound → PlayerRound,
      (recordScore w pn tn cn hn sc).1.playerRounds
        = w.playerRounds.map (fun q => if q.id = pr.id then g q else q) ∧
      (∀ q, (g q).scores = upsertScore q.scores hn sc) ∧
      (∀ q, (g q).id = q.id ∧ (g q).player = q.player ∧ (g q).teamRound = q.teamRound ∧
        (g q).course = q.course ∧ (g q).status = q.status) := by
  unfold recordScore
  rw [hfind]
  dsimp only
  rcases hsh : pr.startingHole with _ | sh
  · exact ⟨fun q => { q with scores := upsertScore q.scores hn sc }, rfl,
      fun q => rfl, fun q => ⟨rfl, rfl, rfl, rfl, rfl⟩⟩
  · dsimp only
    by_cases hch : courseHasHole (nextHoleNumber sh hn) = true
    · rw [if_pos hch]
      refine ⟨fun q => { q with scores := upsertScore q.scores hn sc, currentHole := some (nextHoleNumber sh hn) }, ?_, fun q => rfl, fun q => ⟨rfl, rfl, rfl, rfl, rfl⟩⟩
      exact mapSelComp w.playerRounds pr.id
        (fun q => { q with scores := upsertScore q.scores hn sc })
        (fun q => { q with currentHole := some (nextHoleNumber sh hn) })
        (fun q => rfl)
    · rw [if_neg hch]
      exact ⟨fun q => { q with scores := upsertScore q.scores hn sc }, rfl,
        fun q => rfl, fun q => ⟨rfl, rfl, rfl, rfl, rfl⟩⟩

/-- C7: submitting a score twice for the same (player, hole) pair against an
active round leaves exactly one PLAYED_HOLE record for that hole, holding the
second value - MERGE matches the existing edge and SET overwrites it, never
duplicating (given the at-most-one-record invariant in the starting state). -/
theorem C7_upsert_idempotent (w : World) (pn tn cn hn : Nat) (sc1 sc2 : Int)
    (pr : PlayerRound) (hfind : findPlayerRound w pn tn cn hn = some pr)
    (hone : (pr.scores.filter fun e => e.1 = hn).length ≤ 1) :
    ∃ pr' ∈ (recordScore (recordScore w pn tn cn hn sc1).1 pn tn cn hn sc2).1.playerRounds,
      pr'.id = pr.id ∧ (pr'.scores.filter fun e => e.1 = hn) = [(hn, sc2)] := by
  obtain ⟨g1, hshape1, hsc1, hfields1⟩ :=
    recordScore_playerRounds_shape w pn tn cn hn sc1 pr hfind
  have hframe := recordScore_graph_frame w pn tn cn hn sc1
  have hPm : ∀ x, prMatches (recordScore w pn tn cn hn sc1).1 x pn tn cn hn
      = prMatches w x pn tn cn hn := by
    intro x
    unfold prMatches
    rw [hframe.2.2.1, hframe.1]
  have hpred : ∀ q, prMatches (recordScore w pn tn cn hn sc1).1
      (if q.id = pr.id then g1 q else q) pn tn cn hn = prMatches w q pn tn cn hn := by
    intro q
    by_cases h : q.id = pr.id
    · rw [if_pos h, hPm]
      unfold prMatches
      rw [(hfields1 q).2.1, (hfields1 q).2.2.1, (hfields1 q).2.2.2.1,
          (hfields1 q).2.2.2.2]
    · rw [if_neg h, hPm]
  have hfind2 : findPlayerRound (recordScore w pn tn cn hn sc1).1 pn tn cn hn
      = some (g1 pr) := by
    unfold findPlayerRound
    rw [hshape1, List.find?_map]
    have hcongr := findCongrMem w.playerRounds
      (fun q => prMatches (recordScore w pn tn cn hn sc1).1
        (if q.id = pr.id then g1 q else q) pn tn cn hn)
      (fun q => prMatches w q pn tn cn hn) (fun x _ => hpred x)
    have hbase : w.playerRounds.find? (fun q => prMatches w q pn tn cn hn) = some pr :=
      hfind
    rw [show ((fun pr => prMatches (recordScore w pn tn cn hn sc1).1 pr pn tn cn hn) ∘
        fun q => if q.id = pr.id then g1 q else q)
        = fun q => prMatches (recordScore w pn tn cn hn sc1).1
          (if q.id = pr.id then g1 q else q) pn tn cn hn from rfl,
      hcongr, hbase]
    exact congrArg some (if_pos rfl)
  obtain ⟨g2, hshape2, hsc2, hfields2⟩ :=
    recordScore_playerRounds_shape (recordScore w pn tn cn hn sc1).1 pn tn cn hn sc2
      (g1 pr) hfind2
  have hmem : pr ∈ w.playerRounds := by
    unfold findPlayerRound at hfind
    exact List.mem_of_find?_eq_some hfind
  refine ⟨g2 (g1 pr), ?_, ?_, ?_⟩
  · rw [hshape2]
    rw [show g2 (g1 pr) = if (g1 pr).id = (g1 pr).id then g2 (g1 pr) else g1 pr from
      (if_pos rfl).symm]
    apply List.mem_map_of_mem
    rw [hshape1]
    rw [show g1 pr = if pr.id = pr.id then g1 pr else pr from (if_pos rfl).symm]
    exact List.mem_map_of_mem _ hmem
  · rw [(hfields2 (g1 pr)).1, (hfields1 pr).1]
  · rw [hsc2 (g1 pr), hsc1 pr]
    exact upsertTwiceFilter pr.scores hn sc1 sc2 hone

/-- Closed instance of C7_upsert_idempotent: scores 3 then 4 on hole 5. -/
theorem C7_upsert_idempotent_witness :
    ∃ pr' ∈ (recordScore (recordScore baseWorld 1 1 1 5 3).1 1 1 1 5 4).1.playerRounds,
      pr'.id = basePR.id ∧ (pr'.scores.filter fun e => e.1 = 5) = [(5, 4)] :=
  C7_upsert_idempotent baseWorld 1 1 1 5 3 4 basePR (by decide) (by decide)

theorem anyMapGen {α β : Type} (f : α → β) (l : List α) (p : β → Bool) :
    (l.map f).any p = l.any fun x => p (f x) := by
  induction l with
  | nil => rfl
  | cons a t ih => simp [List.any_cons, ih]

theorem prIn_reset_arg (w' : World) (tn : Nat) (q : PlayerRound) :
    prInTournament w' (resetPlayerRound q) tn = prInTournament w' q tn := rfl

theorem trIn_reset_arg (w' : World) (tn : Nat) (t : TeamRound) :
    trInTournamentWithPlayer w' (resetTeamRound t) tn
      = trInTournamentWithPlayer w' t tn := rfl

theorem resetWorld_prIn (w : World) (tn : Nat) (pr : PlayerRound) :
    prInTournament
      { w with
          teamRounds := w.teamRounds.map fun tr =>
            if trInTournamentWithPlayer w tr tn then resetTeamRound tr else tr,
          playerRounds := w.playerRounds.map fun q =>
            if prInTournament w q tn then resetPlayerRound q else q }
      pr tn
      = prInTournament w pr tn := by
  unfold prInTournament
  dsimp only
  rw [anyMapGen]
  apply anyCongrMem
  intro tr _
  by_cases h : trInTournamentWithPlayer w tr tn = true
  · rw [if_pos h]
    rfl
  · rw [if_neg h]

theorem resetWorld_trIn (w : World) (tn : Nat) (tr : TeamRound) :
    trInTournamentWithPlayer
      { w with
          teamRounds := w.teamRounds.map fun t =>
            if trInTournamentWithPlayer w t tn then resetTeamRound t else t,
          playerRounds := w.playerRounds.map fun q =>
            if prInTournament w q tn then resetPlayerRound q else q }
      tr tn
      = trInTournamentWithPlayer w tr tn := by
  unfold trInTournamentWithPlayer
  dsimp only
  congr 1
  rw [anyMapGen]
  apply anyCongrMem
  intro q _
  by_cases h : prInTournament w q tn = true
  · rw [if_pos h]
    rfl
  · rw [if_neg h]

/-- C8, amended: start-tournament resets every member-chain round - it deletes
all PLAYED_HOLE records and both pointers of each PlayerRound and zeroes
status/aggregates of both round kinds - but the TeamRound starting_hole and
current_hole pointers are NOT deleted (the reused relationship
variable never matches them); the operation is idempotent. -/
theorem C8_reset_effect_idempotent (w : World) (tn : Nat) :
    (startTournament (startTournament w tn).1 tn).1 = (startTournament w tn).1 ∧
    (∀ tr ∈ w.teamRounds, trInTournamentWithPlayer w tr tn = true →
      ∃ tr' ∈ (startTournament w tn).1.teamRounds,
        tr'.id = tr.id ∧ tr'.status = Status.ready ∧ tr'.total = 0 ∧
        tr'.average = Frac.zero ∧ tr'.rank = 0 ∧
        tr'.startingHole = tr.startingHole ∧ tr'.currentHole = tr.currentHole) ∧
    (∀ pr ∈ w.playerRounds, prInTournament w pr tn = true →
      ∃ pr' ∈ (startTournament w tn).1.playerRounds,
        pr'.id = pr.id ∧ pr'.status = Status.ready ∧ pr'.total = 0 ∧
        pr'.average = Frac.zero ∧ pr'.rank = 0 ∧
        pr'.scores = [] ∧ pr'.startingHole = none ∧ pr'.currentHole = none) := by
  refine ⟨?_, ?_, ?_⟩
  · by_cases hany : (w.teamRounds.any fun tr => trInTournamentWithPlayer w tr tn) = true
    · have h200 : startTournament w tn
          = ({ w with
              teamRounds := w.teamRounds.map fun tr =>
                if trInTournamentWithPlayer w tr tn then resetTeamRound tr else tr,
              playerRounds := w.playerRounds.map fun pr =>
                if prInTournament w pr tn then resetPlayerRound pr else pr }, 200) := by
        unfold startTournament
        rw [if_pos hany]
      rw [h200]
      have hany2 : ((({ w with
              teamRounds := w.teamRounds.map fun tr =>
                if trInTournamentWithPlayer w tr tn then resetTeamRound tr else tr,
              playerRounds := w.playerRounds.map fun pr =>
                if prInTournament w pr tn then resetPlayerRound pr else pr } : World)).teamRounds.any
            fun tr => trInTournamentWithPlayer
              { w with
                teamRounds := w.teamRounds.map fun tr =>
                  if trInTournamentWithPlayer w tr tn then resetTeamRound tr else tr,
                playerRounds := w.playerRounds.map fun pr =>
                  if prInTournament w pr tn then resetPlayerRound pr else pr } tr tn) = true := by
        dsimp only
        rw [anyMapGen]
        have hpt : ∀ tr ∈ w.teamRounds,
            (trInTournamentWithPlayer
              { w with
                teamRounds := w.teamRounds.map fun tr =>
                  if trInTournamentWithPlayer w tr tn then resetTeamRound tr else tr,
                playerRounds := w.playerRounds.map fun pr =>
                  if prInTournament w pr tn then resetPlayerRound pr else pr }
              (if trInTournamentWithPlayer w tr tn then resetTeamRound tr else tr) tn)
            = trInTournamentWithPlayer w tr tn := by
          intro tr _
          by_cases h : trInTournamentWithPlayer w tr tn = true
          · rw [if_pos h, trIn_reset_arg, resetWorld_trIn]
          · rw [if_neg h, resetWorld_trIn]
        rw [anyCongrMem _ _ _ hpt]
        exact hany
      show (startTournament _ tn).1 = _
      unfold startTournament
      rw [if_pos hany2]
      have e1 : ((w.teamRounds.map fun tr =>
            if trInTournamentWithPlayer w tr tn then resetTeamRound tr else tr).map fun tr =>
          if trInTournamentWithPlayer
              { w with
                teamRounds := w.teamRounds.map fun tr =>
                  if trInTournamentWithPlayer w tr tn then resetTeamRound tr else tr,
                playerRounds := w.playerRounds.map fun pr =>
                  if prInTournament w pr tn then resetPlayerRound pr else pr } tr tn
          then resetTeamRound tr else tr)
          = w.teamRounds.map fun tr =>
            if trInTournamentWithPlayer w tr tn then resetTeamRound tr else tr := by
        rw [List.map_map]
        apply List.map_congr_left
        intro tr _
        dsimp only [Function.comp]
        by_cases h : trInTournamentWithPlayer w tr tn = true
        · simp only [if_pos h]
          rw [trIn_reset_arg, resetWorld_trIn w tn tr, if_pos h]
          rfl
        · simp only [if_neg h]
          rw [resetWorld_trIn w tn tr, if_neg h]
      have e2 : ((w.playerRounds.map fun pr =>
            if prInTournament w pr tn then resetPlayerRound pr else pr).map fun pr =>
          if prInTournament
              { w with
                teamRounds := w.teamRounds.map fun tr =>
                  if trInTournamentWithPlayer w tr tn then resetTeamRound tr else tr,
                playerRounds := w.playerRounds.map fun pr =>
                  if prInTournament w pr tn then resetPlayerRound pr else pr } pr tn
          then resetPlayerRound pr else pr)
          = w.playerRounds.map fun pr =>
            if prInTournament w pr tn then resetPlayerRound pr else pr := by
        rw [List.map_map]
        apply List.map_congr_left
        intro pr _
        dsimp only [Function.comp]
        by_cases h : prInTournament w pr tn = true
        · simp only [if_pos h]
          rw [prIn_reset_arg, resetWorld_prIn w tn pr, if_pos h]
          rfl
        · simp only [if_neg h]
          rw [resetWorld_prIn w tn pr, if_neg h]
      dsimp only
      rw [e1, e2]
    · have h404 : startTournament w tn = (w, 404) := by
        unfold startTournament
        rw [if_neg hany]
      rw [h404, h404]
  · intro tr htr hP
    have hany : (w.teamRounds.any fun tr => trInTournamentWithPlayer w tr tn) = true :=
      List.any_eq_true.mpr ⟨tr, htr, hP⟩
    unfold startTournament
    rw [if_pos hany]
    refine ⟨_, List.mem_map_of_mem _ htr, ?_⟩
    rw [if_pos hP]
    exact ⟨rfl, rfl, rfl, rfl, rfl, rfl, rfl⟩
  · intro pr hpr hP
    have hany : (w.teamRounds.any fun tr => trInTournamentWithPlayer w tr tn) = true := by
      have hex := List.any_eq_true.mp hP
      obtain ⟨tr0, htr0, hcond⟩ := hex
      refine List.any_eq_true.mpr ⟨tr0, htr0, ?_⟩
      simp only [Bool.and_eq_true, decide_eq_true_eq] at hcond
      obtain ⟨⟨⟨hid, htt⟩, hht⟩, hpl⟩ := hcond
      unfold trInTournamentWithPlayer trInTournament
      simp only [Bool.and_eq_true, decide_eq_true_eq]
      refine ⟨⟨htt, hht⟩, ?_⟩
      refine List.any_eq_true.mpr ⟨pr, hpr, ?_⟩
      simp only [Bool.and_eq_true, decide_eq_true_eq]
      exact ⟨hid.symm, hpl⟩
    unfold startTournament
    rw [if_pos hany]
    refine ⟨_, List.mem_map_of_mem _ hpr, ?_⟩
    rw [if_pos hP]
    exact ⟨rfl, rfl, rfl, rfl, rfl, rfl, rfl, rfl⟩

/-- Closed instance of C8_reset_effect_idempotent at worldBeforeReset. -/
theorem C8_reset_witness :
    (startTournament (startTournament worldBeforeReset 1).1 1).1
      = (startTournament worldBeforeReset 1).1 ∧
    (∃ tr' ∈ (startTournament worldBeforeReset 1).1.teamRounds,
      tr'.id = 1 ∧ tr'.status = Status.ready ∧ tr'.total = 0 ∧
      tr'.average = Frac.zero ∧ tr'.rank = 0 ∧
      tr'.startingHole = some 3 ∧ tr'.currentHole = some 3) ∧
    (∃ pr' ∈ (startTournament worldBeforeReset 1).1.playerRounds,
      pr'.id = 1 ∧ pr'.status = Status.ready ∧ pr'.total = 0 ∧
      pr'.average = Frac.zero ∧ pr'.rank = 0 ∧
      pr'.scores = [] ∧ pr'.startingHole = none ∧ pr'.currentHole = none) := by
  have h := C8_reset_effect_idempotent worldBeforeReset 1
  refine ⟨h.1, ?_, ?_⟩
  · exact h.2.1 { baseTR with startingHole := some 3, currentHole := some 3 }
      (by decide) (by decide)
  · exact h.2.2 { basePR with scores := [(5, 4)], total := 4, average := Frac.ofInt 4 }
      (by decide) (by decide)

theorem isEmptyFalseOfNeNil {α : Type} {l : List α} (h : l ≠ []) :
    l.isEmpty = false := by
  cases l with
  | nil => exact absurd rfl h
  | cons a t => rfl

theorem posRank_eq_none {α : Type} (idOf : α → Nat) (i : Nat) (L : List α)
    (h : ∀ y ∈ L, idOf y ≠ i) : posRank idOf i L = none := by
  induction L with
  | nil => rfl
  | cons a t ih =>
    unfold posRank
    rw [if_neg (h a (List.mem_cons_self a t)),
        ih fun y hy => h y (List.mem_cons_of_mem a hy)]
    rfl

theorem rank_none_of_not_qualifying (prs : List PlayerRound) (pr : PlayerRound)
    (hid : (prs.map PlayerRound.id).Nodup) (hmem : pr ∈ prs)
    (hq : statusQualifies pr.status = false) :
    posRank PlayerRound.id pr.id (orderedQualifying prs) = none := by
  apply posRank_eq_none
  intro y hy hyid
  have hyQ : y ∈ prs.filter fun q => statusQualifies q.status :=
    (List.perm_insertionSort leByTotal _).mem_iff.mp hy
  have hymem : y ∈ prs := (List.mem_filter.mp hyQ).1
  have hyq : statusQualifies y.status = true := (List.mem_filter.mp hyQ).2
  have heq : y = pr := List.inj_on_of_nodup_map hid hymem hmem hyid
  rw [heq, hq] at hyq
  exact Bool.false_ne_true hyq

theorem teamRank_none_of_not_qualifying (trs : List TeamRound) (tr : TeamRound)
    (hid : (trs.map TeamRound.id).Nodup) (hmem : tr ∈ trs)
    (hq : statusQualifies tr.status = false) :
    posRank TeamRound.id tr.id (orderedQualifyingTeams trs) = none := by
  apply posRank_eq_none
  intro y hy hyid
  have hyQ : y ∈ trs.filter fun q => statusQualifies q.status :=
    (List.perm_insertionSort leByAverage _).mem_iff.mp hy
  have hymem : y ∈ trs := (List.mem_filter.mp hyQ).1
  have hyq : statusQualifies y.status = true := (List.mem_filter.mp hyQ).2
  have heq : y = tr := List.inj_on_of_nodup_map hid hymem hmem hyid
  rw [heq, hq] at hyq
  exact Bool.false_ne_true hyq

theorem applyPlayerRanks_mem (prs : List PlayerRound) (q : PlayerRound) (hq : q ∈ prs) :
    ∃ q' ∈ applyPlayerRanks prs, q'.id = q.id ∧ q'.status = q.status ∧
      q'.scores = q.scores ∧ q'.startingHole = q.startingHole ∧
      q'.currentHole = q.currentHole ∧ q'.total = q.total ∧ q'.average = q.average ∧
      (posRank PlayerRound.id q.id (orderedQualifying prs) = none → q'.rank = q.rank) := by
  unfold applyPlayerRanks
  refine ⟨_, List.mem_map_of_mem _ hq, ?_⟩
  cases hpos : posRank PlayerRound.id q.id (orderedQualifying prs) with
  | none => simp [hpos]
  | some r => simp [hpos]

theorem applyTeamRanks_mem (trs : List TeamRound) (q : TeamRound) (hq : q ∈ trs) :
    ∃ q' ∈ applyTeamRanks trs, q'.id = q.id ∧ q'.status = q.status ∧
      q'.startingHole = q.startingHole ∧ q'.currentHole = q.currentHole ∧
      q'.total = q.total ∧ q'.average = q.average ∧
      (posRank TeamRound.id q.id (orderedQualifyingTeams trs) = none → q'.rank = q.rank) := by
  unfold applyTeamRanks
  refine ⟨_, List.mem_map_of_mem _ hq, ?_⟩
  cases hpos : posRank TeamRound.id q.id (orderedQualifyingTeams trs) with
  | none => simp [hpos]
  | some r => simp [hpos]

theorem playerAggregate_frame (pr : PlayerRound) :
    (playerAggregate pr).id = pr.id ∧ (playerAggregate pr).status = pr.status ∧
    (playerAggregate pr).scores = pr.scores ∧
    (playerAggregate pr).startingHole = pr.startingHole ∧
    (playerAggregate pr).currentHole = pr.currentHole ∧
    (playerAggregate pr).rank = pr.rank := by
  unfold playerAggregate
  split
  · exact ⟨rfl, rfl, rfl, rfl, rfl, rfl⟩
  · exact ⟨rfl, rfl, rfl, rfl, rfl, rfl⟩

theorem playerAggregate_set (pr : PlayerRound)
    (hq : statusQualifies pr.status = true) (hne : pr.scores ≠ []) :
    (playerAggregate pr).total = sumScores pr.scores ∧
    (playerAggregate pr).average = fracDiv (sumScores pr.scores) pr.scores.length := by
  have hcond : (statusQualifies pr.status && !pr.scores.isEmpty) = true := by
    rw [hq, isEmptyFalseOfNeNil hne]
    rfl
  unfold playerAggregate
  rw [hcond]
  exact ⟨rfl, rfl⟩

theorem playerAggregate_skip (pr : PlayerRound)
    (h : (statusQualifies pr.status && !pr.scores.isEmpty) = false) :
    playerAggregate pr = pr := by
  unfold playerAggregate
  rw [h]
  rfl

theorem teamAggregate_frame (w2 : World) (tr : TeamRound) :
    (teamAggregate w2 tr).id = tr.id ∧ (teamAggregate w2 tr).status = tr.status ∧
    (teamAggregate w2 tr).startingHole = tr.startingHole ∧
    (teamAggregate w2 tr).currentHole = tr.currentHole ∧
    (teamAggregate w2 tr).rank = tr.rank := by
  unfold teamAggregate
  dsimp only
  split
  · exact ⟨rfl, rfl, rfl, rfl, rfl⟩
  · exact ⟨rfl, rfl, rfl, rfl, rfl⟩

theorem teamAggregate_set (w2 : World) (tr : TeamRound)
    (hq : statusQualifies tr.status = true)
    (hteam : (w2.teams.any fun t => t = tr.team) = true)
    (hne : contributingPRs w2 tr ≠ []) :
    (teamAggregate w2 tr).total = ((contributingPRs w2 tr).map fun q => q.total).sum ∧
    (teamAggregate w2 tr).average
      = fracDiv (((contributingPRs w2 tr).map fun q => q.total).sum)
          (contributingPRs w2 tr).length := by
  have hcond : (statusQualifies tr.status && (w2.teams.any fun t => t = tr.team) &&
      !(contributingPRs w2 tr).isEmpty) = true := by
    rw [hq, hteam, isEmptyFalseOfNeNil hne]
    rfl
  unfold teamAggregate
  dsimp only
  rw [hcond]
  exact ⟨rfl, rfl⟩

theorem teamAggregate_skip (w2 : World) (tr : TeamRound)
    (h : (statusQualifies tr.status && (w2.teams.any fun t => t = tr.team) &&
      !(contributingPRs w2 tr).isEmpty) = false) :
    teamAggregate w2 tr = tr := by
  unfold teamAggregate
  dsimp only
  rw [h]
  rfl

/-- C5, amended: after update-leaderboard, every active/complete PlayerRound
WITH at least one score record has total = sum of its score values and
average = total / count; an active/complete round with no score records keeps
its previous total and average untouched (its aggregate query row never
matches), and ready/done rounds keep total, average and rank.  TeamRounds
behave the same with total = sum of the refreshed totals of their
active/complete member rounds and average = that sum / member count, again only
when at least one contributing member row matches. -/
theorem C5_aggregates (w : World) (pr : PlayerRound) (tr : TeamRound)
    (hpid : ((aggregatedPlayerRounds w).map PlayerRound.id).Nodup)
    (htid : ((aggregatedTeamRounds w).map TeamRound.id).Nodup)
    (hpr : pr ∈ w.playerRounds) (htr : tr ∈ w.teamRounds) :
    (∃ pr' ∈ (updateLeaderboard w).playerRounds,
      pr'.id = pr.id ∧ pr'.status = pr.status ∧ pr'.scores = pr.scores ∧
      pr'.startingHole = pr.startingHole ∧ pr'.currentHole = pr.currentHole ∧
      ((statusQualifies pr.status = true ∧ pr.scores ≠ []) →
        pr'.total = sumScores pr.scores ∧
        pr'.average = fracDiv (sumScores pr.scores) pr.scores.length) ∧
      ((statusQualifies pr.status = true ∧ pr.scores = []) →
        pr'.total = pr.total ∧ pr'.average = pr.average) ∧
      (statusQualifies pr.status = false →
        pr'.total = pr.total ∧ pr'.average = pr.average ∧ pr'.rank = pr.rank)) ∧
    (∃ tr' ∈ (updateLeaderboard w).teamRounds,
      tr'.id = tr.id ∧ tr'.status = tr.status ∧
      tr'.startingHole = tr.startingHole ∧ tr'.currentHole = tr.currentHole ∧
      ((statusQualifies tr.status = true ∧
          (w.teams.any fun t => t = tr.team) = true ∧
          contributingPRs (playerPhases w) tr ≠ []) →
        tr'.total = ((contributingPRs (playerPhases w) tr).map fun q => q.total).sum ∧
        tr'.average = fracDiv
          (((contributingPRs (playerPhases w) tr).map fun q => q.total).sum)
          (contributingPRs (playerPhases w) tr).length) ∧
      ((statusQualifies tr.status = true ∧
          ¬((w.teams.any fun t => t = tr.team) = true ∧
            contributingPRs (playerPhases w) tr ≠ [])) →
        tr'.total = tr.total ∧ tr'.average = tr.average) ∧
      (statusQualifies tr.status = false →
        tr'.total = tr.total ∧ tr'.average = tr.average ∧ tr'.rank = tr.rank)) := by
  constructor
  · have hm1 : playerAggregate pr ∈ aggregatedPlayerRounds w :=
      List.mem_map_of_mem _ hpr
    obtain ⟨pr', hmem', hid', hst', hsc', hsh', hch', htot', havg', hrank'⟩ :=
      applyPlayerRanks_mem (aggregatedPlayerRounds w) (playerAggregate pr) hm1
    obtain ⟨hfid, hfst, hfsc, hfsh, hfch, hfrk⟩ := playerAggregate_frame pr
    have hres : (updateLeaderboard w).playerRounds
        = applyPlayerRanks (aggregatedPlayerRounds w) := rfl
    refine ⟨pr', by rw [hres]; exact hmem', hid'.trans hfid, hst'.trans hfst,
      hsc'.trans hfsc, hsh'.trans hfsh, hch'.trans hfch, ?_, ?_, ?_⟩
    · rintro ⟨hq, hne⟩
      obtain ⟨ht, ha⟩ := playerAggregate_set pr hq hne
      exact ⟨htot'.trans ht, havg'.trans ha⟩
    · rintro ⟨hq, hnil⟩
      have hskip : playerAggregate pr = pr := by
        apply playerAggregate_skip
        rw [hnil]
        cases statusQualifies pr.status <;> rfl
      rw [hskip] at htot' havg'
      exact ⟨htot', havg'⟩
    · intro hq
      have hskip : playerAggregate pr = pr := by
        apply playerAggregate_skip
        rw [hq]
        rfl
      have hnone : posRank PlayerRound.id (playerAggregate pr).id
          (orderedQualifying (aggregatedPlayerRounds w)) = none := by
        apply rank_none_of_not_qualifying _ _ hpid hm1
        rw [hfst]
        exact hq
      rw [hskip] at htot' havg'
      refine ⟨htot', havg', ?_⟩
      rw [hrank' hnone, hfrk]
  · have hm1 : teamAggregate (playerPhases w) tr ∈ aggregatedTeamRounds w :=
      List.mem_map_of_mem _ htr
    obtain ⟨tr', hmem', hid', hst', hsh', hch', htot', havg', hrank'⟩ :=
      applyTeamRanks_mem (aggregatedTeamRounds w) (teamAggregate (playerPhases w) tr) hm1
    obtain ⟨hfid, hfst, hfsh, hfch, hfrk⟩ := teamAggregate_frame (playerPhases w) tr
    have hres : (updateLeaderboard w).teamRounds
        = applyTeamRanks (aggregatedTeamRounds w) := rfl
    refine ⟨tr', by rw [hres]; exact hmem', hid'.trans hfid, hst'.trans hfst,
      hsh'.trans hfsh, hch'.trans hfch, ?_, ?_, ?_⟩
    · rintro ⟨hq, hteam, hne⟩
      obtain ⟨ht, ha⟩ := teamAggregate_set (playerPhases w) tr hq hteam hne
      exact ⟨htot'.trans ht, havg'.trans ha⟩
    · rintro ⟨hq, hnot⟩
      have hskip : teamAggregate (playerPhases w) tr = tr := by
        apply teamAggregate_skip
        rcases not_and_or.mp hnot with hb | hc
        · have hbf : ((playerPhases w).teams.any fun t => t = tr.team) = false := by
            cases hb' : (playerPhases w).teams.any fun t => t = tr.team
            · rfl
            · exact absurd hb' hb
          rw [hbf, hq]
          rfl
        · have hceq : contributingPRs (playerPhases w) tr = [] := not_ne_iff.mp hc
          rw [hceq, hq]
          cases hb' : (playerPhases w).teams.any fun t => t = tr.team <;> rfl
      rw [hskip] at htot' havg'
      exact ⟨htot', havg'⟩
    · intro hq
      have hskip : teamAggregate (playerPhases w) tr = tr := by
        apply teamAggregate_skip
        rw [hq]
        rfl
      have hnone : posRank TeamRound.id (teamAggregate (playerPhases w) tr).id
          (orderedQualifyingTeams (aggregatedTeamRounds w)) = none := by
        apply teamRank_none_of_not_qualifying _ _ htid hm1
        rw [hfst]
        exact hq
      rw [hskip] at htot' havg'
      refine ⟨htot', havg', ?_⟩
      rw [hrank' hnone, hfrk]

/-- Closed instance of C5_aggregates at worldScored: the active player round
with one score of 4 ends with total 4, average 4/1; the team round with that
contributing member ends with total 4. -/
theorem C5_aggregates_witness :
    ∃ pr' ∈ (updateLeaderboard worldScored).playerRounds,
      pr'.id = 1 ∧ pr'.total = 4 ∧ pr'.average = fracDiv 4 1 := by
  have h := C5_aggregates worldScored { basePR with scores := [(5, 4)] } baseTR
    (by decide) (by decide) (by decide) (by decide)
  obtain ⟨⟨pr', hmem, hid, _, _, _, _, hset, _, _⟩, _⟩ := h
  obtain ⟨ht, ha⟩ := hset ⟨by decide, by decide⟩
  exact ⟨pr', hmem, hid, ht, ha⟩

theorem posRank_pairwise_count {α : Type} (idOf : α → Nat) (slt : α → α → Bool)
    (hasym : ∀ a b, slt a b = true → slt b a = false)
    (L : List α) (x : α) (hpw : L.Pairwise fun a b => slt a b = true)
    (hid : (L.map idOf).Nodup) (hx : x ∈ L) :
    posRank idOf (idOf x) L = some (1 + L.countP fun y => slt y x) := by
  induction L with
  | nil => cases hx
  | cons a t ih =>
    rw [List.pairwise_cons] at hpw
    obtain ⟨ha, hpt⟩ := hpw
    rw [List.map_cons, List.nodup_cons] at hid
    obtain ⟨hnotin, hndt⟩ := hid
    by_cases hcase : idOf a = idOf x
    · have hax : a = x := by
        rcases List.mem_cons.mp hx with h | h
        · exact h.symm
        · exact absurd (List.mem_map_of_mem idOf h) (hcase ▸ hnotin)
      subst hax
      unfold posRank
      rw [if_pos hcase]
      have hcount0 : t.countP (fun y => slt y a) = 0 := by
        rw [List.countP_eq_zero]
        intro y hy
        rw [hasym a y (ha y hy)]
        simp
      have haa : slt a a = false := by
        cases hsa : slt a a
        · rfl
        · exact absurd ((hasym a a hsa).symm.trans hsa) Bool.false_ne_true
      rw [List.countP_cons, hcount0, haa]
      rfl
    · have hxt : x ∈ t := by
        rcases List.mem_cons.mp hx with h | h
        · exact absurd (by rw [h]) hcase
        · exact h
      unfold posRank
      rw [if_neg hcase, ih hpt hndt hxt, List.countP_cons, ha x hxt]
      exact congrArg some (Nat.add_assoc 1 _ 1)

theorem playerRankValue (prs : List PlayerRound) (pr : PlayerRound)
    (hid : (prs.map PlayerRound.id).Nodup)
    (hdist : (prs.filter fun q => statusQualifies q.status).Pairwise
      fun a b => a.total ≠ b.total)
    (hmem : pr ∈ prs) (hq : statusQualifies pr.status = true) :
    posRank PlayerRound.id pr.id (orderedQualifying prs)
      = some (1 + (prs.filter fun q => statusQualifies q.status).countP
          fun y => decide (y.total < pr.total)) := by
  have hperm : (orderedQualifying prs).Perm (prs.filter fun q => statusQualifies q.status) :=
    List.perm_insertionSort leByTotal _
  have hsorted : List.Sorted leByTotal (orderedQualifying prs) :=
    List.sorted_insertionSort leByTotal _
  have hmemQ : pr ∈ prs.filter fun q => statusQualifies q.status :=
    List.mem_filter.mpr ⟨hmem, hq⟩
  have hxo : pr ∈ orderedQualifying prs := hperm.mem_iff.mpr hmemQ
  have hno : ((orderedQualifying prs).map PlayerRound.id).Nodup := by
    have hsub : ((prs.filter fun q => statusQualifies q.status).map PlayerRound.id).Sublist
        (prs.map PlayerRound.id) := (List.filter_sublist prs).map PlayerRound.id
    exact ((hperm.map PlayerRound.id).nodup_iff).mpr (hsub.nodup hid)
  have hne : (orderedQualifying prs).Pairwise fun a b => a.total ≠ b.total := by
    refine (List.Perm.pairwise_iff ?_ hperm).mpr hdist
    intro a b h e
    exact h e.symm
  have hlt : (orderedQualifying prs).Pairwise
      fun a b => decide (a.total < b.total) = true := by
    have hand := List.Pairwise.and hsorted hne
    exact hand.imp fun hab => decide_eq_true (lt_of_le_of_ne hab.1 hab.2)
  have hmain := posRank_pairwise_count PlayerRound.id
    (fun a b => decide (a.total < b.total))
    (fun a b h => decide_eq_false (lt_asymm (of_decide_eq_true h)))
    (orderedQualifying prs) pr hlt hno hxo
  rw [hmain, List.Perm.countP_eq _ hperm]

theorem teamRankValue (trs : List TeamRound) (tr : TeamRound)
    (hid : (trs.map TeamRound.id).Nodup)
    (hdist : (trs.filter fun q => statusQualifies q.status).Pairwise
      fun a b => ¬ Frac.valueEq a.average b.average)
    (hmem : tr ∈ trs) (hq : statusQualifies tr.status = true) :
    posRank TeamRound.id tr.id (orderedQualifyingTeams trs)
      = some (1 + (trs.filter fun q => statusQualifies q.status).countP
          fun y => decide (Frac.lt y.average tr.average)) := by
  have hperm : (orderedQualifyingTeams trs).Perm
      (trs.filter fun q => statusQualifies q.status) :=
    List.perm_insertionSort leByAverage _
  have hsorted : List.Sorted leByAverage (orderedQualifyingTeams trs) :=
    List.sorted_insertionSort leByAverage _
  have hmemQ : tr ∈ trs.filter fun q => statusQualifies q.status :=
    List.mem_filter.mpr ⟨hmem, hq⟩
  have hxo : tr ∈ orderedQualifyingTeams trs := hperm.mem_iff.mpr hmemQ
  have hno : ((orderedQualifyingTeams trs).map TeamRound.id).Nodup := by
    have hsub : ((trs.filter fun q => statusQualifies q.status).map TeamRound.id).Sublist
        (trs.map TeamRound.id) := (List.filter_sublist trs).map TeamRound.id
    exact ((hperm.map TeamRound.id).nodup_iff).mpr (hsub.nodup hid)
  have hne : (orderedQualifyingTeams trs).Pairwise
      fun a b => ¬ Frac.valueEq a.average b.average := by
    refine (List.Perm.pairwise_iff ?_ hperm).mpr hdist
    intro a b h e
    exact h e.symm
  have hlt : (orderedQualifyingTeams trs).Pairwise
      fun a b => decide (Frac.lt a.average b.average) = true := by
    have hand := List.Pairwise.and hsorted hne
    exact hand.imp fun hab => decide_eq_true (lt_of_le_of_ne hab.1 hab.2)
  have hmain := posRank_pairwise_count TeamRound.id
    (fun a b => decide (Frac.lt a.average b.average))
    (fun a b h => decide_eq_false (lt_asymm (of_decide_eq_true h)))
    (orderedQualifyingTeams trs) tr hlt hno hxo
  rw [hmain, List.Perm.countP_eq _ hperm]

/-- C3, amended: the rank queries of update-leaderboard contain no tournament
scoping and so rank GLOBALLY: every PlayerRound with qualifying status receives
rank = 1 + the number of qualifying PlayerRounds of ANY tournament whose
(refreshed) total is smaller (assuming distinct totals; ties are ordered
arbitrarily), and every qualifying TeamRound receives rank = 1 + the number of
qualifying TeamRounds with smaller AVERAGE - teams are ranked by average, not
by their own total as the claim states. -/
theorem C3_global_ranking (w : World) (pr : PlayerRound) (tr : TeamRound)
    (hpid : ((aggregatedPlayerRounds w).map PlayerRound.id).Nodup)
    (hpdist : ((aggregatedPlayerRounds w).filter fun q => statusQualifies q.status).Pairwise
      fun a b => a.total ≠ b.total)
    (hpmem : pr ∈ aggregatedPlayerRounds w) (hpq : statusQualifies pr.status = true)
    (htid : ((aggregatedTeamRounds w).map TeamRound.id).Nodup)
    (htdist : ((aggregatedTeamRounds w).filter fun q => statusQualifies q.status).Pairwise
      fun a b => ¬ Frac.valueEq a.average b.average)
    (htmem : tr ∈ aggregatedTeamRounds w) (htq : statusQualifies tr.status = true) :
    ({ pr with rank := 1 + ((aggregatedPlayerRounds w).filter fun q =>
        statusQualifies q.status).countP fun y => decide (y.total < pr.total) }
      ∈ (updateLeaderboard w).playerRounds) ∧
    ({ tr with rank := 1 + ((aggregatedTeamRounds w).filter fun q =>
        statusQualifies q.status).countP fun y => decide (Frac.lt y.average tr.average) }
      ∈ (updateLeaderboard w).teamRounds) := by
  constructor
  · have hval := playerRankValue (aggregatedPlayerRounds w) pr hpid hpdist hpmem hpq
    have hres : (updateLeaderboard w).playerRounds
        = applyPlayerRanks (aggregatedPlayerRounds w) := rfl
    rw [hres]
    unfold applyPlayerRanks
    refine List.mem_map.mpr ⟨pr, hpmem, ?_⟩
    rw [hval]
  · have hval := teamRankValue (aggregatedTeamRounds w) tr htid htdist htmem htq
    have hres : (updateLeaderboard w).teamRounds
        = applyTeamRanks (aggregatedTeamRounds w) := rfl
    rw [hres]
    unfold applyTeamRanks
    refine List.mem_map.mpr ⟨tr, htmem, ?_⟩
    rw [hval]

/-- Closed instance of C3_global_ranking at worldRanked: the player round with
total 40 gets global rank 1, and the team round whose refreshed average is 40/1
gets team rank 1. -/
theorem C3_global_ranking_witness :
    ({ donePR 1 1 1 40 with rank := 1 }
      ∈ (updateLeaderboard worldRanked).playerRounds) ∧
    ({ baseTR with id := 1, status := Status.complete, total := 40, average := fracDiv 40 1, rank := 1 }
      ∈ (updateLeaderboard worldRanked).teamRounds) :=
  C3_global_ranking worldRanked (donePR 1 1 1 40)
    { baseTR with id := 1, status := Status.complete, total := 40, average := fracDiv 40 1 }
    (by decide) (by decide) (by decide) (by decide)
    (by decide) (by decide) (by decide) (by decide)

end Minigolf
